import Mathlib

/-!
Verification development for the Shenandoah root processor
(`src/share/vm/gc_implementation/shenandoah/shenandoahRootProcessor.cpp`,
jdk8u Shenandoah backport).

The file shallowly embeds the two orchestrators of that translation unit,
`ShenandoahRootProcessor` and `ShenandoahRootEvacuator`, at the level the
claims are about: the `SubTasksDone` claim set guarding the singleton root
sources, the per-worker program-order visitation trace of each entry point,
the pending-list-lock (PLL) pre-pass of the evacuation scan, and the
workers-start / workers-end timing bracket of the evacuator's
constructor / destructor pair.
-/

namespace ShenandoahRP

/-- The singleton root-source task ids.  The source declares two parallel
enums, `SHENANDOAH_RP_PS_*` for `ShenandoahRootProcessor` and
`SHENANDOAH_EVAC_*` for `ShenandoahRootEvacuator`; both consist of exactly
these seven elements (Universe, JNIHandles, FlatProfiler, Management,
JvmtiExport, SystemDictionary strong sources plus the JNIHandles weak
table), so one Lean type serves both `SubTasksDone` instances. -/
inductive SingletonTask
  | universeOops
  | jniHandlesOops
  | flatProfilerOops
  | managementOops
  | jvmtiOops
  | systemDictionaryOops
  | jniHandlesWeakOops
  deriving DecidableEq, Repr

/-- The six ClaimSet-guarded singleton *strong* root sources named by the
spec: global object table (Universe), native-handle table (JNIHandles),
profiling sample table (FlatProfiler), management-agent table (Management),
debug-agent table (JvmtiExport), symbol/class dictionary
(SystemDictionary). -/
def strongSingletonTasks : List SingletonTask :=
  [.universeOops, .jniHandlesOops, .flatProfilerOops,
   .managementOops, .jvmtiOops, .systemDictionaryOops]

/-- `SubTasksDone::is_task_claimed` in program order for one worker's call
of `ShenandoahRootProcessor::process_vm_roots`: the six strong singleton
sources are attempted unconditionally; the JNIHandles weak table is
attempted only when the `weak_roots` closure is non-null. -/
def vmRootsClaimOrder (weakNonNull : Bool) : List SingletonTask :=
  strongSingletonTasks ++ (if weakNonNull then [.jniHandlesWeakOops] else [])

/-- `SubTasksDone::is_task_claimed` in program order for one worker's call
of `ShenandoahRootEvacuator::process_evacuate_roots`: all seven tasks are
attempted unconditionally. -/
def evacClaimOrder : List SingletonTask :=
  strongSingletonTasks ++ [.jniHandlesWeakOops]

/-- One atomic `is_task_claimed` step on the shared claim state.  The
shared state maps each task id to whether it is already claimed; a step on
an unclaimed id succeeds (the caller must do the work) and marks the id
claimed; a step on a claimed id fails (the caller skips).  `runClaims`
executes an arbitrary interleaving of such steps, given as a list of
(worker id, task id) pairs, and returns the successful steps in order. -/
def runClaims : (SingletonTask → Bool) → List (Nat × SingletonTask) →
    List (Nat × SingletonTask)
  | _, [] => []
  | s, e :: rest =>
    if s e.2 then runClaims s rest
    else e :: runClaims (fun x => if x = e.2 then true else s x) rest

/-- How many steps of the interleaving `σ` successfully claim task `t`
(starting from the all-unclaimed state a fresh `SubTasksDone` has):
each success is one invocation of that source's visitor. -/
def claimSuccessCount (σ : List (Nat × SingletonTask)) (t : SingletonTask) : Nat :=
  (runClaims (fun _ => false) σ).countP (fun e => e.2 = t)

/-- The steps of worker `w` inside the interleaving `σ`, in order. -/
def workerProj (σ : List (Nat × SingletonTask)) (w : Nat) : List SingletonTask :=
  (σ.filter (fun e => e.1 = w)).map (fun e => e.2)

/-- `σ` is an interleaving of `n` workers each executing the claim-attempt
program `prog` once: every step belongs to a worker below `n`, and each
worker's subsequence of steps is exactly `prog`. -/
def isInterleaving (σ : List (Nat × SingletonTask)) (n : Nat)
    (prog : List SingletonTask) : Bool :=
  σ.all (fun e => decide (e.1 < n)) &&
    (List.range n).all (fun w => workerProj σ w = prog)

theorem runClaims_cons_true {s : SingletonTask → Bool} {e : Nat × SingletonTask}
    {rest : List (Nat × SingletonTask)} (hc : s e.2 = true) :
    runClaims s (e :: rest) = runClaims s rest := by
  rw [runClaims, if_pos hc]

theorem runClaims_cons_false {s : SingletonTask → Bool} {e : Nat × SingletonTask}
    {rest : List (Nat × SingletonTask)} (hc : s e.2 = false) :
    runClaims s (e :: rest) =
      e :: runClaims (fun x => if x = e.2 then true else s x) rest := by
  rw [runClaims, if_neg (by rw [hc]; exact Bool.false_ne_true)]

theorem runClaims_countP_eq_zero_of_claimed (t : SingletonTask) :
    ∀ (σ : List (Nat × SingletonTask)) (s : SingletonTask → Bool),
      s t = true →
      (runClaims s σ).countP (fun e => e.2 = t) = 0 := by
  intro σ
  induction σ with
  | nil => intro s _; simp [runClaims]
  | cons e rest ih =>
    intro s hs
    by_cases hc : s e.2 = true
    · rw [runClaims_cons_true hc]
      exact ih s hs
    · have hcf : s e.2 = false := Bool.not_eq_true _ |>.mp hc
      have hne : ¬ (e.2 = t) := by
        intro h
        rw [h, hs] at hcf
        simp at hcf
      have hupd : (fun x => if x = e.2 then true else s x) t = true := by
        show (if t = e.2 then true else s t) = true
        rw [if_neg (fun h => hne h.symm)]
        exact hs
      have h0 := ih (fun x => if x = e.2 then true else s x) hupd
      rw [runClaims_cons_false hcf, List.countP_cons, h0]
      simp [hne]

theorem runClaims_countP_eq_one (t : SingletonTask) :
    ∀ (σ : List (Nat × SingletonTask)) (s : SingletonTask → Bool),
      s t = false →
      0 < σ.countP (fun e => e.2 = t) →
      (runClaims s σ).countP (fun e => e.2 = t) = 1 := by
  intro σ
  induction σ with
  | nil => intro s _ h; simp at h
  | cons e rest ih =>
    intro s hs hpos
    by_cases het : e.2 = t
    · -- The head step targets `t`; since `t` is unclaimed it succeeds,
      -- and no later step on `t` can succeed again.
      have hc : s e.2 = false := by rw [het]; exact hs
      have hupd : (fun x => if x = e.2 then true else s x) t = true := by
        show (if t = e.2 then true else s t) = true
        rw [if_pos het.symm]
      have h0 := runClaims_countP_eq_zero_of_claimed t rest
        (fun x => if x = e.2 then true else s x) hupd
      rw [runClaims_cons_false hc, List.countP_cons, h0]
      simp [het]
    · by_cases hc : s e.2 = true
      · rw [runClaims_cons_true hc]
        apply ih s hs
        simpa [List.countP_cons, het] using hpos
      · have hcf : s e.2 = false := Bool.not_eq_true _ |>.mp hc
        have hupd : (fun x => if x = e.2 then true else s x) t = false := by
          show (if t = e.2 then true else s t) = false
          rw [if_neg (fun h => het h.symm)]
          exact hs
        have h1 := ih (fun x => if x = e.2 then true else s x) hupd
          (by simpa [List.countP_cons, het] using hpos)
        rw [runClaims_cons_false hcf, List.countP_cons, h1]
        simp [het]

theorem mem_of_workerProj_mem {σ : List (Nat × SingletonTask)} {w : Nat}
    {t : SingletonTask} (h : t ∈ workerProj σ w) : (w, t) ∈ σ := by
  unfold workerProj at h
  rcases List.mem_map.mp h with ⟨e, he, het⟩
  rcases List.mem_filter.mp he with ⟨heσ, hew⟩
  have hw : e.1 = w := by simpa using hew
  have : e = (w, t) := by
    cases e
    simp_all
  rw [← this]
  exact heσ

theorem countP_pos_of_interleaving {σ : List (Nat × SingletonTask)} {n : Nat}
    {prog : List SingletonTask} {t : SingletonTask}
    (hn : 1 ≤ n) (hσ : isInterleaving σ n prog = true) (ht : t ∈ prog) :
    0 < σ.countP (fun e => e.2 = t) := by
  have h0 : workerProj σ 0 = prog := by
    have := (Bool.and_eq_true _ _).mp hσ |>.2
    rw [List.all_eq_true] at this
    have h0n : (0 : Nat) ∈ List.range n := List.mem_range.mpr hn
    simpa using this 0 h0n
  have hmem : (0, t) ∈ σ := mem_of_workerProj_mem (w := 0) (h0 ▸ ht)
  rw [List.countP_pos_iff]
  exact ⟨(0, t), hmem, by simp⟩

/-- C1 witness interleaving of two workers over the `process_vm_roots`
claim program with a non-null weak closure. -/
def c1VmSigma : List (Nat × SingletonTask) :=
  [(0, .universeOops), (1, .universeOops), (1, .jniHandlesOops),
   (0, .jniHandlesOops), (0, .flatProfilerOops), (0, .managementOops),
   (1, .flatProfilerOops), (1, .managementOops), (1, .jvmtiOops),
   (1, .systemDictionaryOops), (1, .jniHandlesWeakOops), (0, .jvmtiOops),
   (0, .systemDictionaryOops), (0, .jniHandlesWeakOops)]

/-- C1 witness interleaving of two workers over the
`process_evacuate_roots` claim program. -/
def c1EvacSigma : List (Nat × SingletonTask) :=
  [(1, .universeOops), (1, .jniHandlesOops), (0, .universeOops),
   (0, .jniHandlesOops), (0, .flatProfilerOops), (1, .flatProfilerOops),
   (1, .managementOops), (0, .managementOops), (0, .jvmtiOops),
   (0, .systemDictionaryOops), (0, .jniHandlesWeakOops), (1, .jvmtiOops),
   (1, .systemDictionaryOops), (1, .jniHandlesWeakOops)]

/-- C1: for any worker count n ≥ 1 and any interleaving of the atomic
`is_task_claimed` steps of n workers each calling `process_vm_roots`
(respectively `process_evacuate_roots`) once, each of the six
ClaimSet-guarded singleton strong root sources is claimed successfully —
and hence its visitor invoked — exactly once in total across all workers;
all later claim attempts on that task fail and the caller skips the
source. -/
theorem C1_singleton_sources_visited_exactly_once :
    (∀ (n : Nat) (weakNonNull : Bool) (σ : List (Nat × SingletonTask))
        (t : SingletonTask),
        1 ≤ n → isInterleaving σ n (vmRootsClaimOrder weakNonNull) = true →
        t ∈ strongSingletonTasks → claimSuccessCount σ t = 1) ∧
    (∀ (n : Nat) (σ : List (Nat × SingletonTask)) (t : SingletonTask),
        1 ≤ n → isInterleaving σ n evacClaimOrder = true →
        t ∈ strongSingletonTasks → claimSuccessCount σ t = 1) := by
  constructor
  · intro n w σ t hn hσ ht
    have htp : t ∈ vmRootsClaimOrder w := List.mem_append_left _ ht
    exact runClaims_countP_eq_one t σ (fun _ => false) rfl
      (countP_pos_of_interleaving hn hσ htp)
  · intro n σ t hn hσ ht
    have htp : t ∈ evacClaimOrder := List.mem_append_left _ ht
    exact runClaims_countP_eq_one t σ (fun _ => false) rfl
      (countP_pos_of_interleaving hn hσ htp)

/-- C1 witness: concrete two-worker interleavings of both entry points in
which the Universe and SystemDictionary singleton sources are each visited
exactly once. -/
theorem C1_singleton_sources_visited_exactly_once_witness :
    claimSuccessCount c1VmSigma .universeOops = 1 ∧
    claimSuccessCount c1EvacSigma .systemDictionaryOops = 1 :=
  ⟨C1_singleton_sources_visited_exactly_once.1 2 true c1VmSigma .universeOops
      (by decide) (by decide) (by decide),
   C1_singleton_sources_visited_exactly_once.2 2 c1EvacSigma
      .systemDictionaryOops (by decide) (by decide) (by decide)⟩

/-! ## Per-worker visitation traces

The entry points are embedded as the program-order list of root-source
visitation events one worker's call produces.  Conditional sources are
encoded by filtering a source-order candidate list through the guard read
off the corresponding `if` in the C++ body; which ClaimSet claims this
worker wins is abstracted by a `wins` function (the concurrent claim
semantics itself is the `runClaims` model above). -/

/-- Which `ShenandoahCodeRoots` iterator a code-root traversal uses:
`ShenandoahCodeRoots::iterator()` walks the full code table;
`ShenandoahCodeRoots::cset_iterator()` only the code units referencing the
collection set. -/
inductive CodeIter
  | full
  | csetOnly
  deriving DecidableEq, Repr

/-- A liveness-predicate argument (`BoolObjectClosure*`): the C++ NULL
pointer, the stack-allocated `AlwaysTrueClosure`, or a caller-supplied
predicate given by the set of object ids it reports alive. -/
inductive AliveSpec
  | nullC
  | alwaysTrueC
  | suppliedC (aliveSet : List Nat)
  deriving DecidableEq, Repr

/-- `do_object_b` of the modelled predicate.  A NULL predicate is never
consulted on any path modelled here, so its value is immaterial. -/
def aliveEval : AliveSpec → Nat → Bool
  | .nullC, _ => true
  | .alwaysTrueC, _ => true
  | .suppliedC s, x => s.contains x

/-- One root-source visitation event of a worker's trace. -/
inductive RootSrc
  | pllPrePass
  | cldgRoots
  | threadRoots
  | codeCacheRoots (it : CodeIter)
  | universeRoots
  | jniRoots
  | flatProfilerRoots
  | managementRoots
  | jvmtiRoots
  | systemDictionaryRoots
  | jniWeakRoots (isAlive : AliveSpec)
  | stringDedupRoots
  | objectSynchronizerRoots
  | stringTableRoots
  | stringTableUnlinkRoots
  deriving DecidableEq, Repr

/-- `ShenandoahRootProcessor::process_all_roots_slow`: the fully serial
fallback, in the source's fixed call order — full code cache, CLDG,
Universe, FlatProfiler, Management, JvmtiExport, JNIHandles strong, then
JNIHandles weak with `AlwaysTrueClosure`, ObjectSynchronizer,
SystemDictionary, StringTable, the dedup table when that subsystem is
enabled, and the thread stacks deliberately last. -/
def process_all_roots_slow (dedupEnabled : Bool) : List RootSrc :=
  [.codeCacheRoots .full, .cldgRoots, .universeRoots, .flatProfilerRoots,
   .managementRoots, .jvmtiRoots, .jniRoots, .jniWeakRoots .alwaysTrueC,
   .objectSynchronizerRoots, .systemDictionaryRoots, .stringTableRoots] ++
  (if dedupEnabled then [.stringDedupRoots] else []) ++
  [.threadRoots]

/-- The visitation candidates of
`ShenandoahRootProcessor::process_vm_roots` in source order. -/
def vmSegments (isAlive : AliveSpec) : List RootSrc :=
  [.universeRoots, .jniRoots, .flatProfilerRoots, .managementRoots,
   .jvmtiRoots, .systemDictionaryRoots, .jniWeakRoots isAlive,
   .stringDedupRoots, .objectSynchronizerRoots, .stringTableUnlinkRoots]

/-- The guard of each `process_vm_roots` candidate, read off the `if`s of
the body: the six strong singletons fire when this worker's
`is_task_claimed` returns false (`wins`); the JNIHandles weak table when
additionally `weak_roots != NULL`; string dedup when
`ShenandoahStringDedup::is_enabled()` and `weak_roots != NULL`; the
`ShenandoahSynchronizerIterator` loop unconditionally; and the StringTable
unlink-or-visit pass when `weak_roots != NULL`. -/
def vmGuard (wins : SingletonTask → Bool) (weakNonNull dedupEnabled : Bool) :
    RootSrc → Bool
  | .universeRoots => wins .universeOops
  | .jniRoots => wins .jniHandlesOops
  | .flatProfilerRoots => wins .flatProfilerOops
  | .managementRoots => wins .managementOops
  | .jvmtiRoots => wins .jvmtiOops
  | .systemDictionaryRoots => wins .systemDictionaryOops
  | .jniWeakRoots _ => weakNonNull && wins .jniHandlesWeakOops
  | .stringDedupRoots => dedupEnabled && weakNonNull
  | .objectSynchronizerRoots => true
  | .stringTableUnlinkRoots => weakNonNull
  | _ => false

/-- Modelled from the spec: `StringTable::possibly_parallel_unlink_or_oops_do`
(the PartitionedTable intern-table traversal, declared outside this
translation unit) visits every entry of this worker's partition and
unlinks the entries the liveness predicate reports dead, writing the pair
(processed, removed) through its two out-parameters. -/
def possibly_parallel_unlink_or_oops_do (isAlive : AliveSpec)
    (entries : List Nat) : Nat × Nat :=
  (entries.length, (entries.filter (fun e => !(aliveEval isAlive e))).length)

/-- What one call of `process_vm_roots` produces: the program-order trace
of source visits; the (processed, removed) pair the StringTable pass
stores into the two local variables `processed` and `removed`; and what
the function hands back to its caller — its C++ return type is `void`, so
the returned channel is empty. -/
structure VmRootsResult where
  events : List RootSrc
  localCounts : Option (Nat × Nat)
  returned : Option (Nat × Nat)
  deriving DecidableEq, Repr

/-- `ShenandoahRootProcessor::process_vm_roots`. -/
def process_vm_roots (wins : SingletonTask → Bool) (weakNonNull : Bool)
    (isAlive : AliveSpec) (dedupEnabled : Bool) (internEntries : List Nat) :
    VmRootsResult :=
  ⟨(vmSegments isAlive).filter (vmGuard wins weakNonNull dedupEnabled),
   if weakNonNull then
     some (possibly_parallel_unlink_or_oops_do isAlive internEntries)
   else none,
   none⟩

/-- The visitation candidates of
`ShenandoahRootEvacuator::process_evacuate_roots` in source order: the PLL
pre-pass block, CLDG, thread stacks, the collection-set code-root
iterator, the claim-guarded singletons, the JNIHandles weak table with the
stack-allocated `AlwaysTrueClosure`, string dedup, the
`ShenandoahSynchronizerIterator` loop, and
`StringTable::possibly_parallel_oops_do`. -/
def evacSegments : List RootSrc :=
  [.pllPrePass, .cldgRoots, .threadRoots, .codeCacheRoots .csetOnly,
   .universeRoots, .jniRoots, .flatProfilerRoots, .managementRoots,
   .jvmtiRoots, .systemDictionaryRoots, .jniWeakRoots .alwaysTrueC,
   .stringDedupRoots, .objectSynchronizerRoots, .stringTableRoots]

/-- The guard of each `process_evacuate_roots` candidate, read off the
`if`s of the body: PLL pre-pass, CLDG, thread stacks, ObjectSynchronizer
and StringTable run unconditionally; the code-root traversal only when the
blob closure is non-null; the singletons when this worker's
`is_task_claimed` returns false; string dedup when enabled. -/
def evacGuard (wins : SingletonTask → Bool) (blobsNonNull dedupEnabled : Bool) :
    RootSrc → Bool
  | .pllPrePass => true
  | .cldgRoots => true
  | .threadRoots => true
  | .codeCacheRoots _ => blobsNonNull
  | .universeRoots => wins .universeOops
  | .jniRoots => wins .jniHandlesOops
  | .flatProfilerRoots => wins .flatProfilerOops
  | .managementRoots => wins .managementOops
  | .jvmtiRoots => wins .jvmtiOops
  | .systemDictionaryRoots => wins .systemDictionaryOops
  | .jniWeakRoots _ => wins .jniHandlesWeakOops
  | .stringDedupRoots => dedupEnabled
  | .objectSynchronizerRoots => true
  | .stringTableRoots => true
  | _ => false

/-- `ShenandoahRootEvacuator::process_evacuate_roots` (per-worker trace). -/
def process_evacuate_roots (wins : SingletonTask → Bool)
    (blobsNonNull dedupEnabled : Bool) : List RootSrc :=
  evacSegments.filter (evacGuard wins blobsNonNull dedupEnabled)

/-- Heap state the PLL pre-pass reads: the pending-list-lock slot
(`java_lang_ref_Reference::pending_list_lock_addr()`, a possibly-null
oop — compressed and uncompressed loads decode to the same abstract
value), collection-set membership (`ShenandoahHeap::in_collection_set`),
and forwarding resolution
(`ShenandoahBarrierSet::resolve_forwarded_not_null`). -/
structure PllHeapView where
  pll : Option Nat
  inCollectionSet : Nat → Bool
  resolveForwarded : Nat → Nat

/-- The condition under which the PLL pre-pass of
`process_evacuate_roots` calls `heap->evacuate_object(pll, t)`: the slot
holds a non-null oop that is in the collection set and still resolves to
itself (not yet forwarded). -/
def pllEvacuationAttempted (h : PllHeapView) : Bool :=
  match h.pll with
  | none => false
  | some p => h.inCollectionSet p && (h.resolveForwarded p == p)

/-- Modelled from the spec: `ShenandoahHeap::evacuate_object` is declared
outside this translation unit; per the spec the evacuation is a
compare-and-set "forward if not already forwarded" operation, so redundant
concurrent attempts are safe.  The state tracks whether the PLL object has
been forwarded and how many physical relocations have happened. -/
structure PllForwarding where
  forwarded : Bool
  relocations : Nat
  deriving DecidableEq, Repr

/-- Modelled from the spec: one worker's CAS evacuation attempt on the PLL
object — a no-op once the object is already forwarded. -/
def evacuate_object_cas (s : PllForwarding) : PllForwarding :=
  if s.forwarded then s else ⟨true, s.relocations + 1⟩

/-- Events fed to the timing aggregator (`ShenandoahPhaseTimings`). -/
inductive TimingEvent
  | workersStart
  | workersEnd
  | workerTimer (src : RootSrc)
  deriving DecidableEq, Repr

/-- The timing-aggregator log of one `ShenandoahRootEvacuator` lifetime:
the constructor calls `phase_timings()->record_workers_start(_phase)`
once; the worker calls contribute their per-source
`ShenandoahWorkerTimingsTracker` records; the destructor — which C++ runs
on every exit path of the scope holding the evacuator, including early
returns — calls `record_workers_end(_phase)` once. -/
def evacSessionLog (workerTraces : List (List RootSrc)) : List TimingEvent :=
  ([TimingEvent.workersStart] ++
    (workerTraces.flatten.map TimingEvent.workerTimer)) ++
  [TimingEvent.workersEnd]

/-- Outcome of an entry point that may hit a fatal assertion. -/
inductive StrongRootsOutcome
  | fatalError (msg : String)
  | completed (events : List RootSrc)
  deriving DecidableEq, Repr

/-- `ShenandoahRootProcessor::process_java_roots`: CLDG traversal first,
then the self-partitioning thread-stack traversal. -/
def process_java_roots : List RootSrc := [.cldgRoots, .threadRoots]

/-- `ShenandoahRootProcessor::process_strong_roots`: asserts
`thread_cl == NULL` ("not implemented yet"), then runs
`process_java_roots` followed by `process_vm_roots` with NULL weak
closure and NULL liveness predicate. -/
def process_strong_roots (threadClNonNull : Bool)
    (wins : SingletonTask → Bool) (dedupEnabled : Bool) : StrongRootsOutcome :=
  if threadClNonNull then .fatalError "not implemented yet"
  else .completed (process_java_roots ++
    (process_vm_roots wins false .nullC dedupEnabled []).events)

/-! ## Helper lemmas about filtered traces -/

theorem all_filter_of_guard {p g : RootSrc → Bool} :
    ∀ l : List RootSrc, (∀ e ∈ l, g e = true → p e = true) →
      (l.filter g).all p = true := by
  intro l h
  rw [List.all_eq_true]
  intro e he
  rcases List.mem_filter.mp he with ⟨hm, hg⟩
  exact h e hm hg

theorem evacuate_object_cas_fixed (r : Nat) :
    ∀ k : Nat, evacuate_object_cas^[k] ⟨true, r⟩ = ⟨true, r⟩ := by
  intro k
  induction k with
  | zero => rfl
  | succ n ih =>
    rw [Function.iterate_succ_apply,
      show evacuate_object_cas ⟨true, r⟩ = ⟨true, r⟩ from rfl, ih]

/-! ## Claims C2-C4 -/

/-- C2: in `process_evacuate_roots` the PLL pre-pass is the first event of
every worker's trace (before any other root source); `evacuate_object` is
attempted on the pending-list-lock object exactly when the slot holds a
non-null reference that is in the collection set and still resolves to
itself; and for any number k of concurrent CAS forwarding attempts the
object is physically relocated at most once — exactly once as soon as
some attempt happens. -/
theorem C2_pll_prepass_first_and_single_relocation :
    (∀ (wins : SingletonTask → Bool) (blobsNonNull dedupEnabled : Bool),
        (process_evacuate_roots wins blobsNonNull dedupEnabled).head? =
          some .pllPrePass) ∧
    (∀ h : PllHeapView, pllEvacuationAttempted h = true ↔
        ∃ p, h.pll = some p ∧ h.inCollectionSet p = true ∧
          h.resolveForwarded p = p) ∧
    (∀ k : Nat, (evacuate_object_cas^[k] ⟨false, 0⟩).relocations ≤ 1) ∧
    (∀ k : Nat, 1 ≤ k →
        (evacuate_object_cas^[k] ⟨false, 0⟩).relocations = 1) := by
  refine ⟨?_, ?_, ?_, ?_⟩
  · intro wins b d
    rfl
  · intro h
    cases hp : h.pll with
    | none => simp [pllEvacuationAttempted, hp]
    | some p => simp [pllEvacuationAttempted, hp, Bool.and_eq_true, beq_iff_eq]
  · intro k
    cases k with
    | zero => exact Nat.zero_le 1
    | succ n =>
      rw [Function.iterate_succ_apply,
        show evacuate_object_cas ⟨false, 0⟩ = ⟨true, 1⟩ from rfl,
        evacuate_object_cas_fixed 1 n]
  · intro k hk
    cases k with
    | zero => exact absurd hk (by simp)
    | succ n =>
      rw [Function.iterate_succ_apply,
        show evacuate_object_cas ⟨false, 0⟩ = ⟨true, 1⟩ from rfl,
        evacuate_object_cas_fixed 1 n]

/-- C2 witness: four concurrent CAS attempts relocate the PLL object
exactly once. -/
theorem C2_pll_prepass_first_and_single_relocation_witness :
    (evacuate_object_cas^[4] ⟨false, 0⟩).relocations = 1 :=
  C2_pll_prepass_first_and_single_relocation.2.2.2 4 (by norm_num)

/-- C3 counterexample: with a null weak visitor the monitor/synchronizer
table is still visited — `process_vm_roots` runs the
`ShenandoahSynchronizerIterator` loop unconditionally, with the strong
visitor, so it is not one of the sources skipped when `weak_roots` is
NULL, contrary to the claim. -/
theorem C3_counterexample :
    RootSrc.objectSynchronizerRoots ∈
      (process_vm_roots (fun _ => true) false .nullC true []).events := by
  decide

/-- The `process_vm_roots` sources that the body guards behind
`weak_roots != NULL`: the JNIHandles weak table, the string-dedup table,
and the StringTable unlink-or-visit pass. -/
def isWeakGuardedVmSrc : RootSrc → Bool
  | .jniWeakRoots _ => true
  | .stringDedupRoots => true
  | .stringTableUnlinkRoots => true
  | _ => false

/-- C3 (amended): when the weak visitor is null, `process_vm_roots` skips
the native-handle weak table, the deduplication table and the intern
(string) table — and computes no (processed, removed) counts — but the
monitor/synchronizer table is *not* weak-guarded: it is still visited,
with the strong visitor. -/
theorem C3_null_weak_skips_three_weak_sources :
    ∀ (wins : SingletonTask → Bool) (isAlive : AliveSpec)
      (dedupEnabled : Bool) (internEntries : List Nat),
      ((process_vm_roots wins false isAlive dedupEnabled
          internEntries).events.all (fun e => !(isWeakGuardedVmSrc e)) = true) ∧
      (process_vm_roots wins false isAlive dedupEnabled
          internEntries).localCounts = none ∧
      RootSrc.objectSynchronizerRoots ∈
        (process_vm_roots wins false isAlive dedupEnabled
          internEntries).events := by
  intro wins isAlive d entries
  refine ⟨?_, rfl, ?_⟩
  · apply all_filter_of_guard
    intro e hm hg
    simp [vmSegments] at hm
    rcases hm with h | h | h | h | h | h | h | h | h | h <;> subst h <;>
      first
        | rfl
        | simp [vmGuard] at hg
  · exact List.mem_filter.mpr ⟨by simp [vmSegments], rfl⟩

/-- C4: the fully serial fallback visits thread-stack roots strictly after
every other source: the thread-stack traversal is the final event of
`process_all_roots_slow` and occurs nowhere earlier, for either value of
the string-dedup flag. -/
theorem C4_slow_scan_threads_last :
    ∀ dedupEnabled : Bool,
      (process_all_roots_slow dedupEnabled).getLast? = some .threadRoots ∧
      (process_all_roots_slow dedupEnabled).dropLast.all
        (fun e => !(e == .threadRoots)) = true := by
  intro d
  cases d <;> exact ⟨by decide, by decide⟩

/-! ## Claims C5-C10 -/

/-- C5 counterexample: at a concrete call with a non-null weak visitor the
StringTable pass computes (processed, removed) = (3, 1) into the two local
variables, yet `process_vm_roots` is `void`: the pair is discarded, not
returned to the caller. -/
theorem C5_counterexample :
    (process_vm_roots (fun _ => true) true (.suppliedC [1, 2]) false
        [1, 2, 3]).localCounts = some (3, 1) ∧
    ¬ (process_vm_roots (fun _ => true) true (.suppliedC [1, 2]) false
        [1, 2, 3]).returned = some (3, 1) := by
  exact ⟨rfl, by decide⟩

/-- C5 (amended): with a non-null weak visitor `process_vm_roots` obtains
the (processed, removed) pair of the StringTable unlink-or-visit
traversal into two local variables, but the function's return type is
`void`: the pair is discarded and nothing is returned to the caller for
observability. -/
theorem C5_counts_computed_but_discarded :
    ∀ (wins : SingletonTask → Bool) (isAlive : AliveSpec)
      (dedupEnabled : Bool) (internEntries : List Nat),
      (process_vm_roots wins true isAlive dedupEnabled
          internEntries).localCounts =
        some (possibly_parallel_unlink_or_oops_do isAlive internEntries) ∧
      (process_vm_roots wins true isAlive dedupEnabled
          internEntries).returned = none := by
  intro _ _ _ _
  exact ⟨rfl, rfl⟩

/-- Holds of an event unless it is a weak-table walk with a predicate
other than the always-alive one. -/
def weakPredAlwaysAlive : RootSrc → Bool
  | .jniWeakRoots a => a == .alwaysTrueC
  | _ => true

/-- C6: in `process_evacuate_roots` every weak-source visit fixes the
liveness predicate to "always alive": the only predicate-taking traversal
in its trace is the JNIHandles weak walk with the stack-allocated
`AlwaysTrueClosure`, which reports every object alive — and the entry
point accepts no caller-supplied liveness predicate that could be
consulted instead. -/
theorem C6_evac_weak_predicate_always_alive :
    (∀ (wins : SingletonTask → Bool) (blobsNonNull dedupEnabled : Bool),
        (process_evacuate_roots wins blobsNonNull dedupEnabled).all
          weakPredAlwaysAlive = true) ∧
    (∀ x : Nat, aliveEval .alwaysTrueC x = true) := by
  constructor
  · intro wins b d
    apply all_filter_of_guard
    intro e hm _
    simp [evacSegments] at hm
    rcases hm with h | h | h | h | h | h | h | h | h | h | h | h | h | h <;>
      subst h <;> rfl
  · intro x
    rfl

/-- The external `ShenandoahCodeRoots` table with its two traversals.
Modelled from the spec: the iterators are declared outside this
translation unit; `cset_iterator()` (condemned-only traversal) yields only
the code units referencing the collection set, `iterator()` (full
traversal) yields the whole code table. -/
structure CodeTable where
  blobs : List Nat
  refsCset : Nat → Bool

/-- Modelled from the spec: which code blobs each iterator hands to the
blob closure. -/
def codeBlobsVisited (it : CodeIter) (tbl : CodeTable) : List Nat :=
  match it with
  | .full => tbl.blobs
  | .csetOnly => tbl.blobs.filter tbl.refsCset

/-- C7: the evacuation scan's code-root traversal is restricted to the
collection set — every code event of its trace carries the cset iterator,
which yields only blobs referencing the condemned region — whereas the
serial fallback `process_all_roots_slow` contains the full-code-table
event, whose traversal yields every blob unfiltered. -/
theorem C7_evac_code_roots_cset_only :
    (∀ (wins : SingletonTask → Bool) (blobsNonNull dedupEnabled : Bool)
        (it : CodeIter),
        .codeCacheRoots it ∈
          process_evacuate_roots wins blobsNonNull dedupEnabled →
        it = .csetOnly) ∧
    (∀ (tbl : CodeTable) (b : Nat),
        b ∈ codeBlobsVisited .csetOnly tbl → tbl.refsCset b = true) ∧
    (∀ tbl : CodeTable, codeBlobsVisited .full tbl = tbl.blobs) ∧
    (∀ dedupEnabled : Bool,
        .codeCacheRoots .full ∈ process_all_roots_slow dedupEnabled) := by
  refine ⟨?_, ?_, ?_, ?_⟩
  · intro wins b d it hm
    have h := (List.mem_filter.mp hm).1
    simpa [evacSegments] using h
  · intro tbl b hb
    exact (List.mem_filter.mp hb).2
  · intro tbl
    rfl
  · intro d
    cases d <;> decide

/-- C7 witness: a concrete trace whose code event is the cset iterator,
and a concrete code table on which the condemned-only traversal yields a
blob referencing the collection set. -/
theorem C7_evac_code_roots_cset_only_witness :
    CodeIter.csetOnly = CodeIter.csetOnly ∧
    (⟨[1, 2, 3], fun b => b == 2⟩ : CodeTable).refsCset 2 = true :=
  ⟨C7_evac_code_roots_cset_only.1 (fun _ => true) true true .csetOnly
      (by decide),
   C7_evac_code_roots_cset_only.2.1 ⟨[1, 2, 3], fun b => b == 2⟩ 2
      (by decide)⟩

/-- C8: every construction-destruction pair of `ShenandoahRootEvacuator`
records exactly one workers-start and exactly one workers-end with the
timing aggregator, the start strictly first and the end strictly last —
one closed interval of non-negative duration — whatever the workers' calls
contributed, including the all-empty traces of early claim failure. -/
theorem C8_evacuator_timing_bracket :
    ∀ workerTraces : List (List RootSrc),
      (evacSessionLog workerTraces).count .workersStart = 1 ∧
      (evacSessionLog workerTraces).count .workersEnd = 1 ∧
      (evacSessionLog workerTraces).head? = some .workersStart ∧
      (evacSessionLog workerTraces).getLast? = some .workersEnd := by
  intro ws
  refine ⟨?_, ?_, rfl, ?_⟩
  · unfold evacSessionLog
    rw [List.count_append, List.count_append]
    have h1 : (ws.flatten.map TimingEvent.workerTimer).count
        TimingEvent.workersStart = 0 := by
      rw [List.count_eq_zero]
      intro hmem
      rcases List.mem_map.mp hmem with ⟨_, _, h⟩
      exact TimingEvent.noConfusion h
    rw [h1]
    rfl
  · unfold evacSessionLog
    rw [List.count_append, List.count_append]
    have h1 : (ws.flatten.map TimingEvent.workerTimer).count
        TimingEvent.workersEnd = 0 := by
      rw [List.count_eq_zero]
      intro hmem
      rcases List.mem_map.mp hmem with ⟨_, _, h⟩
      exact TimingEvent.noConfusion h
    rw [h1]
    rfl
  · unfold evacSessionLog
    rw [List.getLast?_concat]

/-- C9: `process_strong_roots` requires its thread-closure argument to be
NULL: any call with a non-null thread closure hits
`assert(thread_cl == NULL, "not implemented yet")` and aborts. -/
theorem C9_thread_closure_not_implemented :
    ∀ (wins : SingletonTask → Bool) (dedupEnabled : Bool),
      process_strong_roots true wins dedupEnabled =
        .fatalError "not implemented yet" := by
  intro _ _
  rfl

/-- Code-root traversal events. -/
def isCodeEvent : RootSrc → Bool
  | .codeCacheRoots _ => true
  | _ => false

/-- C10: a null code-blob closure makes `process_evacuate_roots` skip the
code-root traversal and nothing else: its trace is exactly the trace of
the non-null call with the code event removed — every other source is
still visited, in the same order. -/
theorem C10_null_blob_closure_skips_code_roots :
    ∀ (wins : SingletonTask → Bool) (dedupEnabled : Bool),
      process_evacuate_roots wins false dedupEnabled =
        (process_evacuate_roots wins true dedupEnabled).filter
          (fun e => !(isCodeEvent e)) := by
  intro wins d
  unfold process_evacuate_roots
  rw [List.filter_filter]
  apply List.filter_congr
  intro e hm
  simp [evacSegments] at hm
  rcases hm with h | h | h | h | h | h | h | h | h | h | h | h | h | h <;>
    subst h <;> simp [evacGuard, isCodeEvent]

end ShenandoahRP
